import Mathlib

/-!
Shallow embedding of the concurrency examples of the AIStudy-go repository
(`src/01_concurrency/09_future.go`, `src/01_concurrency/07_actor.go`, and the
reactive / pipeline code of `src/03_reflection/README.md`), together with
theorems settling the specification claims about them.

Go channels are modelled by their observable state: a completion channel
(`chan struct\x7b\x7d` used only for `close`) is a `Bool` recording whether it
has been closed; a buffered data channel is the `List` of values currently
buffered, with its capacity enforced at the send operation.  `close` of an
already-closed channel is a run-time panic in Go and is modelled as an
`Except.error` / reported panic value.
-/

namespace AIStudy

/-- Go `close(ch)` on a completion channel whose closed-flag is `closed`:
returns the new flag, or panics if the channel is already closed. -/
def closeChan (closed : Bool) : Except String Bool :=
  if closed then .error "close of closed channel" else .ok true

/-! ### Future (`src/01_concurrency/09_future.go`)

`Future` holds `result interface\x7b\x7d`, `err error` and `done chan struct\x7b\x7d`.
The payload type is taken to be `Int` (any value of the dynamic `interface\x7b\x7d`
type can be coded by an integer for the purposes of these claims); `err` is the
error message, `none` standing for Go's `nil` error. -/

structure Future where
  result : Option Int
  err    : Option String
  done   : Bool
  deriving DecidableEq, Repr

/-- `NewFuture()`: zero-valued fields, open `done` channel. -/
def NewFuture : Future :=
  { result := none, err := none, done := false }

/-- `Future.SetResult`: stores the result, then `close(f.done)`.  The field
write happens before the close, so on a second call the result is overwritten
and then the close panics; the panic message is returned in the second
component (`none` = no panic). -/
def Future.SetResult (f : Future) (v : Int) : Future × Option String :=
  let f1 := { f with result := some v }
  match closeChan f1.done with
  | .error e => (f1, some e)
  | .ok d => ({ f1 with done := d }, none)

/-- `Future.SetError`: stores the error, then `close(f.done)`, as in
`SetResult`. -/
def Future.SetError (f : Future) (e : String) : Future × Option String :=
  let f1 := { f with err := some e }
  match closeChan f1.done with
  | .error msg => (f1, some msg)
  | .ok d => ({ f1 with done := d }, none)

/-- `Future.Get`: `<-f.done` then read both fields.  The receive on `done`
only completes once `done` has been closed, so the returned pair is meaningful
exactly in states with `f.done = true`; theorems carry that hypothesis. -/
def Future.Get (f : Future) : Option Int × Option String :=
  (f.result, f.err)

/-- `Future.GetWithTimeout`: `select` between `<-f.done` and the timer.  The
argument is the future's state at the instant the `select` resolves: if `done`
is closed the value branch returns both fields, otherwise the timer branch
returns `(nil, timeout error)`.  The state is threaded through unchanged to
make explicit that the timeout branch does not modify the future. -/
def Future.GetWithTimeout (f : Future) : (Option Int × Option String) × Future :=
  if f.done then ((f.result, f.err), f)
  else ((none, some "timeout"), f)

/-- `Future.IsDone`: non-blocking probe of the `done` channel. -/
def Future.IsDone (f : Future) : Bool :=
  f.done

/-! ### Theorems about `Future` -/

/-- C1: the code, evaluated at the failing input.  The first `SetResult`
succeeds; a second `SetResult` (or a `SetError`) on the same future overwrites
the stored terminal value and then panics with "close of closed channel"
instead of being rejected with a defined `AlreadySet` error. -/
theorem future_double_set_crashes :
    (Future.SetResult NewFuture 1).2 = none ∧
    (Future.SetResult (Future.SetResult NewFuture 1).1 2).2 =
      some "close of closed channel" ∧
    (Future.SetResult (Future.SetResult NewFuture 1).1 2).1.result = some 2 ∧
    (Future.SetError (Future.SetResult NewFuture 1).1 "boom").2 =
      some "close of closed channel" := by
  refine ⟨rfl, rfl, rfl, rfl⟩

/-- C2: on a future whose value has not been assigned (`done` still open,
both fields at their zero value), `GetWithTimeout` that expires returns the
timeout error and leaves the state untouched; a later `SetResult v` (resp.
`SetError e`) succeeds without panic, closes `done`, and `Get` then returns
exactly that assigned terminal value. -/
theorem getWithTimeout_independent (f : Future) (v : Int) (e : String)
    (hd : f.done = false) (hr : f.result = none) (he : f.err = none) :
    (Future.GetWithTimeout f).1 = (none, some "timeout") ∧
    (Future.GetWithTimeout f).2 = f ∧
    (Future.SetResult f v).2 = none ∧
    (Future.SetResult f v).1.done = true ∧
    Future.Get (Future.SetResult f v).1 = (some v, none) ∧
    (Future.SetError f e).2 = none ∧
    (Future.SetError f e).1.done = true ∧
    Future.Get (Future.SetError f e).1 = (none, some e) := by
  simp [Future.GetWithTimeout, Future.SetResult, Future.SetError, Future.Get,
    closeChan, hd, hr, he]

/-- Witness for `getWithTimeout_independent` at the concrete unset future
`NewFuture`, with `v := 42`. -/
theorem getWithTimeout_independent_witness :
    (Future.GetWithTimeout NewFuture).1 = (none, some "timeout") ∧
    Future.Get (Future.SetResult NewFuture 42).1 = (some 42, none) :=
  ⟨(getWithTimeout_independent NewFuture 42 "boom" rfl rfl rfl).1,
   (getWithTimeout_independent NewFuture 42 "boom" rfl rfl rfl).2.2.2.2.1⟩

/-! ### Actor (`src/01_concurrency/07_actor.go`)

`Message` is an interface with `Type() string`; every concrete message of the
file is a `Type` tag plus payload data, so a message is modelled as its tag
together with an integer payload.  The `Actor` holds a buffered mailbox
channel of capacity 100, a handler table `map[string]func(Message)` (modelled
by the list of registered tags — the claims only concern which handler fires
and when), a `stop chan struct\x7b\x7d`, and the dispatch goroutine.  `handled`
records, in order, the messages on which a registered handler was invoked;
`loopExited` records whether the dispatch goroutine has returned (`Stop()`
returns once it has, via `wg.Wait()`). -/

structure Message where
  tag     : String
  payload : Int
  deriving DecidableEq, Repr

structure Actor where
  mailbox    : List Message
  handlers   : List String
  stopClosed : Bool
  loopExited : Bool
  handled    : List Message
  deriving DecidableEq, Repr

/-- `NewActor`: empty mailbox (capacity 100), no handlers, open stop channel,
dispatch loop not yet running/exited, nothing handled. -/
def NewActor : Actor :=
  { mailbox := [], handlers := [], stopClosed := false, loopExited := false,
    handled := [] }

/-- One iteration of the dispatch loop started by `Actor.Start`:
`select` between receiving the next mailbox message (invoking its handler if
one is registered, logging otherwise) and receiving on the closed `stop`
channel (returning from the goroutine).  When both are ready the choice is
nondeterministic, hence a relation. -/
inductive AStep : Actor → Actor → Prop
  | recv (s : Actor) (m : Message) (rest : List Message) :
      s.loopExited = false → s.mailbox = m :: rest →
      AStep s { s with
        mailbox := rest,
        handled := if m.tag ∈ s.handlers then s.handled ++ [m] else s.handled }
  | stopRecv (s : Actor) :
      s.loopExited = false → s.stopClosed = true →
      AStep s { s with loopExited := true }

/-- Executions of the dispatch loop: zero or more `AStep`s. -/
def AReach : Actor → Actor → Prop :=
  Relation.ReflTransGen AStep

/-- Outcome of `Actor.Send`'s bare channel send `a.mailbox <- msg`. -/
inductive SendOutcome where
  | enqueued (mailbox : List Message)
  | blocked
  deriving DecidableEq, Repr

/-- `Actor.Send`: unconditional send into the capacity-100 mailbox channel; it
enqueues while the buffer has room and otherwise blocks until a receiver takes
a message.  There is no state check and no error return. -/
def Actor.Send (a : Actor) (m : Message) : SendOutcome :=
  if a.mailbox.length < 100 then .enqueued (a.mailbox ++ [m]) else .blocked

/-- `Actor.Stop`: `close(a.stop)` then `a.wg.Wait()`.  The close panics if the
stop channel is already closed. -/
def Actor.Stop (a : Actor) : Except String Actor :=
  match closeChan a.stopClosed with
  | .error e => .error e
  | .ok c => .ok { a with stopClosed := c }

/-- Initial dispatch-loop state for a mailbox holding `ms` (sent in that order
by a single sender) with handler table `hs`; the stop channel is in state
`stopped`. -/
def actorInit (hs : List String) (ms : List Message) (stopped : Bool) : Actor :=
  { mailbox := ms, handlers := hs, stopClosed := stopped, loopExited := false,
    handled := [] }

/-- The handler-invocation trace the dispatch loop produces from a mailbox
prefix: messages with a registered handler, in mailbox order (unknown types
are logged and skipped). -/
def dispatchTrace (hs : List String) : List Message → List Message
  | [] => []
  | m :: rest =>
      if m.tag ∈ hs then m :: dispatchTrace hs rest else dispatchTrace hs rest

lemma dispatchTrace_cons_mem (hs : List String) (m : Message) (rest : List Message)
    (h : m.tag ∈ hs) : dispatchTrace hs (m :: rest) = m :: dispatchTrace hs rest := by
  simp [dispatchTrace, h]

lemma dispatchTrace_cons_not_mem (hs : List String) (m : Message) (rest : List Message)
    (h : m.tag ∉ hs) : dispatchTrace hs (m :: rest) = dispatchTrace hs rest := by
  simp [dispatchTrace, h]

/-- An actor whose dispatch loop has exited takes no further step: no message
still in the mailbox is ever received or handled afterwards. -/
lemma loopExited_stuck (s t : Actor) (h : s.loopExited = true) : ¬ AStep s t := by
  intro hstep
  cases hstep with
  | recv m rest hrun hmb => rw [h] at hrun; exact absurd hrun (by simp)
  | stopRecv hrun hstop => rw [h] at hrun; exact absurd hrun (by simp)

/-- Invariant of the dispatch loop when the stop channel is never closed:
handlers are fixed, the stop channel stays open, and the handler trace so far
followed by the trace of the remaining mailbox equals the trace of the whole
send sequence. -/
lemma actor_run_invariant (hs : List String) (ms : List Message) (s : Actor)
    (h : AReach (actorInit hs ms false) s) :
    s.handlers = hs ∧ s.stopClosed = false ∧
    s.handled ++ dispatchTrace hs s.mailbox = dispatchTrace hs ms := by
  induction h with
  | refl => exact ⟨rfl, rfl, by simp [actorInit]⟩
  | tail _ hstep ih =>
      obtain ⟨ihh, ihs, iht⟩ := ih
      cases hstep with
      | recv m rest hrun hmb =>
          refine ⟨ihh, ihs, ?_⟩
          rw [hmb] at iht
          by_cases hmem : m.tag ∈ hs
          · simp only [dispatchTrace_cons_mem hs m rest hmem] at iht
            simp only [ihh, hmem, if_pos, List.append_assoc, List.singleton_append]
            exact iht
          · simp only [dispatchTrace_cons_not_mem hs m rest hmem] at iht
            simp only [ihh, hmem, if_neg, not_false_iff]
            exact iht
      | stopRecv hrun hstop =>
          rw [ihs] at hstop
          exact absurd hstop Bool.false_ne_true

/-- C3: FIFO dispatch.  For a single sender whose messages `ms` were sent in
order (the buffered mailbox channel preserves that order), in every execution
of the dispatch loop in which the actor is not being stopped, the handler
trace produced so far, extended by the handlers still to fire on the remaining
mailbox, is the send-order trace; in particular when the mailbox has been
drained and every message type has a registered handler, the handlers were
invoked on exactly `m1..mN` in exactly that order. -/
theorem actor_fifo (hs : List String) (ms : List Message) (s : Actor)
    (h : AReach (actorInit hs ms false) s) :
    s.handled ++ dispatchTrace hs s.mailbox = dispatchTrace hs ms ∧
    (s.mailbox = [] → (∀ m ∈ ms, m.tag ∈ hs) → s.handled = ms) := by
  obtain ⟨-, -, ht⟩ := actor_run_invariant hs ms s h
  refine ⟨ht, ?_⟩
  intro hemp hall
  rw [hemp] at ht
  simp only [dispatchTrace, List.append_nil] at ht
  rw [ht]
  clear ht h hemp
  induction ms with
  | nil => rfl
  | cons m rest ih =>
      rw [dispatchTrace_cons_mem hs m rest (hall m (List.mem_cons_self m rest))]
      rw [ih (fun x hx => hall x (List.mem_cons_of_mem m hx))]

/-- A two-message FIFO scenario: two `"string"` messages sent in order. -/
def fifoMsgA : Message := { tag := "string", payload := 1 }

/-- Second message of the FIFO scenario. -/
def fifoMsgB : Message := { tag := "string", payload := 2 }

/-- The dispatch-loop state after the first message of the FIFO scenario has
been received and handled. -/
def fifoMid : Actor :=
  { mailbox := [fifoMsgB], handlers := ["string"], stopClosed := false,
    loopExited := false, handled := [fifoMsgA] }

/-- The dispatch-loop state after both messages of the FIFO scenario have been
received and handled. -/
def fifoFinal : Actor :=
  { mailbox := [], handlers := ["string"], stopClosed := false,
    loopExited := false, handled := [fifoMsgA, fifoMsgB] }

lemma astep_cast {s t t' : Actor} (h : AStep s t) (e : t = t') : AStep s t' :=
  e ▸ h

lemma fifoFinal_reach :
    AReach (actorInit ["string"] [fifoMsgA, fifoMsgB] false) fifoFinal :=
  Relation.ReflTransGen.tail
    (Relation.ReflTransGen.single
      (astep_cast
        (AStep.recv (actorInit ["string"] [fifoMsgA, fifoMsgB] false)
          fifoMsgA [fifoMsgB] rfl rfl)
        (by decide)))
    (astep_cast (AStep.recv fifoMid fifoMsgB [] rfl rfl) (by decide))

/-- Witness for `actor_fifo`: in the concrete run that drains the two-message
mailbox, the handlers fired on exactly the two messages in send order. -/
theorem actor_fifo_witness : fifoFinal.handled = [fifoMsgA, fifoMsgB] :=
  (actor_fifo ["string"] [fifoMsgA, fifoMsgB] fifoFinal fifoFinal_reach).2
    rfl (by decide)

/-- C9: `Stop` does not drain the mailbox.  With the stop channel closed and
messages still queued, the `select` may take the stop branch, so there is an
execution in which the dispatch loop exits with the mailbox untouched and
nothing handled; and from any state whose loop has exited (which is what
`Stop()`'s `wg.Wait()` observes before returning) no further step — in
particular no delivery of a queued message to a handler — is possible. -/
theorem stop_no_drain (hs : List String) (m : Message) (ms : List Message) :
    (∃ s : Actor, AReach (actorInit hs (m :: ms) true) s ∧
       s.loopExited = true ∧ s.mailbox = m :: ms ∧ s.handled = []) ∧
    (∀ s t : Actor, s.loopExited = true → ¬ AStep s t) := by
  constructor
  · exact ⟨{ actorInit hs (m :: ms) true with loopExited := true },
      Relation.ReflTransGen.single (AStep.stopRecv _ rfl rfl), rfl, rfl, rfl⟩
  · exact loopExited_stuck

/-- An actor whose dispatch loop has exited with one message still queued. -/
def stoppedPending : Actor :=
  { mailbox := [fifoMsgA], handlers := ["string"], stopClosed := true,
    loopExited := true, handled := [] }

/-- Witness for `stop_no_drain` at a concrete exited state: the queued message
is never received. -/
theorem stop_no_drain_witness :
    ¬ AStep stoppedPending
      { stoppedPending with mailbox := [], handled := [fifoMsgA] } :=
  (stop_no_drain ["string"] fifoMsgA []).2 stoppedPending
    { stoppedPending with mailbox := [], handled := [fifoMsgA] } rfl

/-- C7: the code, evaluated around the failing input.  `Actor.Send` is a bare
channel send: while the capacity-100 mailbox has room it silently enqueues
(no error is ever returned — `SendOutcome` has no error alternative), and once
the mailbox is full it blocks; on a stopped actor the dispatch loop takes no
further step, so a blocked `Send` blocks forever and an enqueued message is
never delivered.  Nothing fails explicitly with a defined error. -/
theorem send_after_stopped_no_error (a : Actor) (m : Message) :
    (a.mailbox.length < 100 → Actor.Send a m = .enqueued (a.mailbox ++ [m])) ∧
    (¬ a.mailbox.length < 100 → Actor.Send a m = .blocked) ∧
    (∀ s t : Actor, s.loopExited = true → ¬ AStep s t) := by
  refine ⟨fun h => ?_, fun h => ?_, loopExited_stuck⟩
  · simp [Actor.Send, h]
  · simp [Actor.Send, h]

/-- A stopped actor whose mailbox is full. -/
def fullStopped : Actor :=
  { mailbox := List.replicate 100 fifoMsgA, handlers := ["string"],
    stopClosed := true, loopExited := true, handled := [] }

/-- Witness for `send_after_stopped_no_error`: on the stopped actor with a
full mailbox, `Send` blocks. -/
theorem send_after_stopped_no_error_witness :
    Actor.Send fullStopped fifoMsgB = .blocked :=
  (send_after_stopped_no_error fullStopped fifoMsgB).2.1 (by decide)

/-- C10: `Stop` is not idempotent.  A first successful `Stop` closes the stop
channel; a second `Stop` on the resulting actor panics with
"close of closed channel". -/
theorem stop_twice_crashes (a b : Actor) (h : Actor.Stop a = .ok b) :
    Actor.Stop b = .error "close of closed channel" := by
  unfold Actor.Stop closeChan at h ⊢
  cases hac : a.stopClosed with
  | true => rw [hac] at h; simp at h
  | false =>
      rw [hac] at h
      simp only [Bool.false_eq_true, if_false, Except.ok.injEq] at h
      subst h
      simp

/-- Witness for `stop_twice_crashes`: stopping the freshly stopped actor. -/
theorem stop_twice_crashes_witness :
    Actor.Stop { NewActor with stopClosed := true } =
      .error "close of closed channel" :=
  stop_twice_crashes NewActor { NewActor with stopClosed := true } rfl

/-! ### Observable (`src/03_reflection/README.md`, reactive programming)

An `Observable` holds a slice of subscriber channels (`chan interface\x7b\x7d`
of capacity 10) and a `closed` flag.  A subscriber channel is its current
buffer contents plus the closed-flag of the channel itself. -/

structure Observer where
  buf      : List Int
  chClosed : Bool
  deriving DecidableEq, Repr

structure Observable where
  observers : List Observer
  closed    : Bool
  deriving DecidableEq, Repr

/-- `NewObservable()`: empty subscriber slice, not closed. -/
def NewObservable : Observable :=
  { observers := [], closed := false }

/-- `Observable.Subscribe`: on a closed bus returns `nil` (no channel is
registered); otherwise appends a fresh empty capacity-10 channel and returns
it (identified by its index in the slice). -/
def Observable.Subscribe (o : Observable) : Option Nat × Observable :=
  if o.closed then (none, o)
  else (some o.observers.length,
    { o with observers := o.observers ++ [{ buf := [], chClosed := false }] })

/-- The `select \x7b case observer <- data: ... default: \x7d` of `Emit`: a
non-blocking send on one subscriber channel.  A send on a closed channel is a
Go run-time panic (the `select` does not protect against it); if the capacity-10
buffer is full the `default` branch skips the value for that subscriber. -/
def trySend (ob : Observer) (v : Int) : Except String Observer :=
  if ob.chClosed then .error "send on closed channel"
  else if ob.buf.length < 10 then .ok { ob with buf := ob.buf ++ [v] }
  else .ok ob

/-- `Observable.Emit`: returns immediately on a closed bus, otherwise attempts
a non-blocking send of the value to every current subscriber in slice order. -/
def Observable.Emit (o : Observable) (v : Int) : Except String Observable :=
  if o.closed then .ok o
  else
    (o.observers.mapM (fun ob => trySend ob v)).map
      (fun obs => { o with observers := obs })

/-- Go `close(observer)` on one subscriber channel. -/
def closeObserver (ob : Observer) : Except String Observer :=
  match closeChan ob.chClosed with
  | .error e => .error e
  | .ok c => .ok { ob with chClosed := c }

/-- `Observable.Close`: sets `closed`, closes every subscriber channel, and
resets the subscriber slice to `nil`. -/
def Observable.Close (o : Observable) : Except String Observable :=
  (o.observers.mapM closeObserver).map
    (fun _ => { o with closed := true, observers := [] })

/-- Effect of one `Emit` on one open subscriber channel: the value is appended
while the capacity-10 buffer has room and dropped otherwise. -/
def emitStep (v : Int) (ob : Observer) : Observer :=
  if ob.buf.length < 10 then { ob with buf := ob.buf ++ [v] } else ob

lemma mapM_trySend_ok (v : Int) (obs : List Observer)
    (h : ∀ ob ∈ obs, ob.chClosed = false) :
    obs.mapM (fun ob => trySend ob v) = .ok (obs.map (emitStep v)) := by
  induction obs with
  | nil => rfl
  | cons ob rest ih =>
      have hob : ob.chClosed = false := h ob (List.mem_cons_self ob rest)
      have hrest := ih (fun x hx => h x (List.mem_cons_of_mem ob hx))
      rw [List.mapM_cons, hrest]
      by_cases hlen : ob.buf.length < 10 <;>
        simp [trySend, emitStep, hob, hlen] <;> rfl

/-- C4: lossy per-subscriber emit.  On an open bus whose subscriber channels
are open, `Emit v` returns without blocking or panic, the bus stays open with
the same subscribers, and each subscriber channel independently either
receives `v` at the end of its buffer (when it has room among its 10 slots) or
misses `v` with its buffer left unchanged (when it is full) — a full
subscriber never prevents the others from receiving. -/
theorem emit_lossy_per_subscriber (o : Observable) (v : Int)
    (hopen : o.closed = false)
    (hch : ∀ ob ∈ o.observers, ob.chClosed = false) :
    Observable.Emit o v =
      .ok { o with observers := o.observers.map (emitStep v) } ∧
    (∀ ob ∈ o.observers,
      (ob.buf.length < 10 → emitStep v ob = { ob with buf := ob.buf ++ [v] }) ∧
      (¬ ob.buf.length < 10 → emitStep v ob = ob)) := by
  constructor
  · rw [Observable.Emit, hopen]
    simp only [Bool.false_eq_true, if_false]
    rw [mapM_trySend_ok v o.observers hch]
    rfl
  · intro ob hob
    exact ⟨fun h => by simp [emitStep, h], fun h => by simp [emitStep, h]⟩

/-- A bus with one full subscriber channel and one with room. -/
def twoSubBus : Observable :=
  { observers := [{ buf := List.replicate 10 0, chClosed := false },
                  { buf := [7], chClosed := false }],
    closed := false }

/-- Witness for `emit_lossy_per_subscriber` on `twoSubBus`: the full
subscriber misses the value, the other receives it. -/
theorem emit_lossy_per_subscriber_witness :
    Observable.Emit twoSubBus 5 =
      .ok { twoSubBus with observers := twoSubBus.observers.map (emitStep 5) } :=
  (emit_lossy_per_subscriber twoSubBus 5 rfl (by decide)).1

/-- The closed bus every `Close` results in. -/
def closedBus : Observable :=
  { observers := [], closed := true }

lemma mapM_closeObserver_ok (obs : List Observer)
    (h : ∀ ob ∈ obs, ob.chClosed = false) :
    ∃ l, obs.mapM closeObserver = .ok l := by
  induction obs with
  | nil => exact ⟨[], rfl⟩
  | cons ob rest ih =>
      have hob : ob.chClosed = false := h ob (List.mem_cons_self ob rest)
      obtain ⟨l, hl⟩ := ih (fun x hx => h x (List.mem_cons_of_mem ob hx))
      refine ⟨{ ob with chClosed := true } :: l, ?_⟩
      rw [List.mapM_cons, hl]
      simp [closeObserver, closeChan, hob]
      rfl

/-- C6: `Close` is idempotent and final.  Closing a bus whose subscriber
channels are open succeeds (every channel is closed exactly once) and leaves
the canonical closed bus; a second `Close` finds no subscriber channel to
close again, so it is a harmless no-op rather than a double-close panic; and
on the closed bus `Subscribe` registers nothing (returns `nil`) while `Emit`
delivers nothing to anyone. -/
theorem close_idempotent_and_final (o : Observable) (v : Int)
    (hch : ∀ ob ∈ o.observers, ob.chClosed = false) :
    Observable.Close o = .ok closedBus ∧
    Observable.Close closedBus = .ok closedBus ∧
    Observable.Subscribe closedBus = (none, closedBus) ∧
    Observable.Emit closedBus v = .ok closedBus := by
  refine ⟨?_, rfl, rfl, rfl⟩
  obtain ⟨l, hl⟩ := mapM_closeObserver_ok o.observers hch
  rw [Observable.Close, hl]
  rfl

/-- Witness for `close_idempotent_and_final` on the concrete two-subscriber
bus. -/
theorem close_idempotent_and_final_witness :
    Observable.Close twoSubBus = .ok closedBus ∧
    Observable.Close closedBus = .ok closedBus :=
  ⟨(close_idempotent_and_final twoSubBus 5 (by decide)).1,
   (close_idempotent_and_final twoSubBus 5 (by decide)).2.1⟩

/-! ### Fan-in `merge` (`src/03_reflection/README.md`, pipeline pattern)

`merge(cs...)` spawns one forwarding goroutine per input channel, all sending
into one shared output channel, and a coordinator that closes the output once
the wait-group of forwarders has drained.  A state records, per input, the
elements that stream has yet to deliver (its forwarder finishes when its input
is exhausted, i.e. closed and drained), the sequence already received on the
output, and whether the output has been closed. -/

structure MState where
  inputs    : List (List Int)
  out       : List Int
  outClosed : Bool
  deriving DecidableEq, Repr

/-- Initial state of `merge` on input streams carrying `ls`. -/
def mergeInit (ls : List (List Int)) : MState :=
  { inputs := ls, out := [], outClosed := false }

/-- One scheduler step of the `merge` goroutines: either some forwarder whose
stream still has elements forwards its next element to the output, or — once
every forwarder has exhausted its stream, which is what `wg.Wait()` observes —
the coordinator closes the output.  A closed output takes no further step. -/
inductive MStep : MState → MState → Prop
  | forward (s : MState) (i : Nat) (x : Int) (rest : List Int) :
      s.outClosed = false → s.inputs[i]? = some (x :: rest) →
      MStep s { inputs := s.inputs.set i rest, out := s.out ++ [x],
                outClosed := false }
  | close (s : MState) :
      s.outClosed = false → (∀ l ∈ s.inputs, l = []) →
      MStep s { s with outClosed := true }

/-- Executions of `merge`: zero or more scheduler steps. -/
def MReach : MState → MState → Prop :=
  Relation.ReflTransGen MStep

lemma flatten_set_perm (ls : List (List Int)) (i : Nat) (x : Int)
    (rest : List Int) (h : ls[i]? = some (x :: rest)) :
    (x :: (ls.set i rest).flatten).Perm ls.flatten := by
  induction ls generalizing i with
  | nil => simp at h
  | cons l tail ih =>
      cases i with
      | zero =>
          simp only [List.getElem?_cons_zero, Option.some.injEq] at h
          subst h
          simp only [List.set_cons_zero, List.flatten_cons, List.cons_append]
          exact List.Perm.refl _
      | succ i =>
          simp only [List.getElem?_cons_succ] at h
          simp only [List.set_cons_succ, List.flatten_cons]
          exact (List.perm_middle.symm).trans (List.Perm.append_left l (ih i h))

lemma merge_invariant (ls : List (List Int)) (s : MState)
    (h : MReach (mergeInit ls) s) :
    (s.out ++ s.inputs.flatten).Perm ls.flatten ∧
    s.inputs.length = ls.length ∧
    (s.outClosed = true → ∀ l ∈ s.inputs, l = []) := by
  induction h with
  | refl =>
      refine ⟨by simp [mergeInit], rfl, ?_⟩
      intro hcl
      simp [mergeInit] at hcl
  | tail _ hstep ih =>
      obtain ⟨ihp, ihl, ihc⟩ := ih
      cases hstep with
      | forward i x rest hopen hget =>
          refine ⟨?_, by simpa using ihl, by intro hcl; simp at hcl⟩
          have h1 : ∀ (a b : List Int), (a ++ [x]) ++ b = a ++ (x :: b) := by
            intro a b; rw [List.append_assoc]; rfl
          rw [h1]
          exact (List.Perm.append_left _ (flatten_set_perm _ i x rest hget)).trans ihp
      | close hopen hall =>
          exact ⟨ihp, ihl, fun _ => hall⟩

lemma merge_can_close (n : Nat) : ∀ s : MState, s.inputs.flatten.length ≤ n →
    ∃ t, MReach s t ∧ t.outClosed = true := by
  induction n with
  | zero =>
      intro s hlen
      cases hc : s.outClosed with
      | true => exact ⟨s, Relation.ReflTransGen.refl, hc⟩
      | false =>
          have hall : ∀ l ∈ s.inputs, l = [] :=
            List.flatten_eq_nil_iff.mp
              (List.length_eq_zero.mp (Nat.le_zero.mp hlen))
          exact ⟨{ s with outClosed := true },
            Relation.ReflTransGen.single (MStep.close s hc hall), rfl⟩
  | succ n ih =>
      intro s hlen
      cases hc : s.outClosed with
      | true => exact ⟨s, Relation.ReflTransGen.refl, hc⟩
      | false =>
          by_cases hall : ∀ l ∈ s.inputs, l = []
          · exact ⟨{ s with outClosed := true },
              Relation.ReflTransGen.single (MStep.close s hc hall), rfl⟩
          · push_neg at hall
            obtain ⟨l, hl, hne⟩ := hall
            obtain ⟨x, rest, hxr⟩ := List.exists_cons_of_ne_nil hne
            subst hxr
            obtain ⟨i, hi⟩ := List.mem_iff_getElem?.mp hl
            have hstep := MStep.forward s i x rest hc hi
            have hlen' :
                (List.set s.inputs i rest).flatten.length ≤ n := by
              have hperm := flatten_set_perm s.inputs i x rest hi
              have := hperm.length_eq
              simp only [List.length_cons] at this
              omega
            obtain ⟨t, hr, htc⟩ :=
              ih { inputs := s.inputs.set i rest, out := s.out ++ [x],
                   outClosed := false } hlen'
            exact ⟨t, Relation.ReflTransGen.head hstep hr, htc⟩

/-- C5: merge completion.  In every execution of `merge` on K input streams
carrying `ls = [l1, .., lK]`: the elements received on the output together
with the elements still to be forwarded are exactly the input elements (each
element forwarded exactly once, as a permutation); the output is closed only
in states where every input stream has been exhausted, and then the output
carries exactly `(l1.length + .. + lK.length)` elements, a permutation of all
the input elements; and every state can be continued to one where the output
is closed (once all inputs are exhausted, the coordinator closes it). -/
theorem merge_complete (ls : List (List Int)) (s : MState)
    (h : MReach (mergeInit ls) s) :
    (s.out ++ s.inputs.flatten).Perm ls.flatten ∧
    (s.outClosed = true →
      (∀ l ∈ s.inputs, l = []) ∧ s.out.Perm ls.flatten ∧
      s.out.length = (ls.map List.length).sum) ∧
    (∃ t, MReach s t ∧ t.outClosed = true) := by
  obtain ⟨hp, hl, hc⟩ := merge_invariant ls s h
  refine ⟨hp, ?_, merge_can_close s.inputs.flatten.length s (Nat.le_refl _)⟩
  intro hcl
  have hall := hc hcl
  have hnil : s.inputs.flatten = [] := List.flatten_eq_nil_iff.mpr hall
  have hperm : s.out.Perm ls.flatten := by
    have := hp
    rw [hnil, List.append_nil] at this
    exact this
  refine ⟨hall, hperm, ?_⟩
  rw [hperm.length_eq, List.length_flatten]

/-- A finished `merge` run on the two streams `[1, 2]` and `[3]`. -/
def mergedFinal : MState :=
  { inputs := [[], []], out := [1, 3, 2], outClosed := true }

lemma mstep_cast {s t t' : MState} (h : MStep s t) (e : t = t') : MStep s t' :=
  e ▸ h

lemma mergedFinal_reach : MReach (mergeInit [[1, 2], [3]]) mergedFinal := by
  have h1 : MStep (mergeInit [[1, 2], [3]])
      { inputs := [[2], [3]], out := [1], outClosed := false } :=
    mstep_cast (MStep.forward (mergeInit [[1, 2], [3]]) 0 1 [2] rfl rfl)
      (by decide)
  have h2 : MStep { inputs := [[2], [3]], out := [1], outClosed := false }
      { inputs := [[2], []], out := [1, 3], outClosed := false } :=
    mstep_cast (MStep.forward
      { inputs := [[2], [3]], out := [1], outClosed := false } 1 3 [] rfl rfl)
      (by decide)
  have h3 : MStep { inputs := [[2], []], out := [1, 3], outClosed := false }
      { inputs := [[], []], out := [1, 3, 2], outClosed := false } :=
    mstep_cast (MStep.forward
      { inputs := [[2], []], out := [1, 3], outClosed := false } 0 2 [] rfl rfl)
      (by decide)
  have h4 : MStep { inputs := [[], []], out := [1, 3, 2], outClosed := false }
      mergedFinal :=
    mstep_cast (MStep.close
      { inputs := [[], []], out := [1, 3, 2], outClosed := false } rfl (by decide))
      (by decide)
  exact Relation.ReflTransGen.head h1 (Relation.ReflTransGen.head h2
    (Relation.ReflTransGen.head h3 (Relation.ReflTransGen.single h4)))

/-- Witness for `merge_complete`: the finished run of `merge` on `[1, 2]` and
`[3]` has delivered a permutation of all three elements, `3 = 2 + 1` of them. -/
theorem merge_complete_witness :
    mergedFinal.out.Perm ([[1, 2], [3]] : List (List Int)).flatten ∧
    mergedFinal.out.length = (([[1, 2], [3]] : List (List Int)).map List.length).sum :=
  ⟨((merge_complete [[1, 2], [3]] mergedFinal mergedFinal_reach).2.1 rfl).2.1,
   ((merge_complete [[1, 2], [3]] mergedFinal mergedFinal_reach).2.1 rfl).2.2⟩

/-! ### `generate` / `square` (`src/03_reflection/README.md`, pipeline pattern)

A pipeline stage is a goroutine producing values on an unbuffered channel and
then closing it; for a single producer and a single consumer the channel is
observed as the finite sequence of values sent before the close, so a stage
denotes the list of values its channel carries, in order. -/

/-- `generate(nums...)`: sends each argument in order, then closes. -/
def generate : List Int → List Int
  | [] => []
  | n :: rest => n :: generate rest

/-- `square(in)`: `for n := range in \x7b out <- n * n \x7d`, closing the output
when the input closes: reads its input stream until closed and forwards each
element squared, preserving order. -/
def square : List Int → List Int
  | [] => []
  | n :: rest => n * n :: square rest

/-- C8: `generate` emits exactly its arguments in argument order and then
closes; `square` maps `n * n` over its input elementwise, preserving order and
length (its output closes exactly when its input does); and the concrete
pipeline `generate(1,2,3)` fed through `square` yields `[1, 4, 9]` in order
followed by closure. -/
theorem generate_square_pipeline (ns : List Int) :
    generate ns = ns ∧
    square ns = ns.map (fun n => n * n) ∧
    (square ns).length = ns.length ∧
    square (generate [1, 2, 3]) = [1, 4, 9] := by
  have hg : ∀ ms : List Int, generate ms = ms := by
    intro ms
    induction ms with
    | nil => rfl
    | cons n rest ih => rw [generate, ih]
  have hs : ∀ ms : List Int, square ms = ms.map (fun n => n * n) := by
    intro ms
    induction ms with
    | nil => rfl
    | cons n rest ih => rw [square, ih]; rfl
  refine ⟨hg ns, hs ns, ?_, by rw [hg [1, 2, 3]]; rfl⟩
  rw [hs ns, List.length_map]

/-- Witness for `generate_square_pipeline` at the spec's Scenario C input. -/
theorem generate_square_pipeline_witness :
    square (generate [1, 2, 3]) = [1, 4, 9] :=
  (generate_square_pipeline [1, 2, 3]).2.2.2

end AIStudy
